import Mathlib

/-!
Verification of the NDS ROM loader core (`src/nds.cpp`): the CRC16 header
validator (`CalcCRC16`, `accept_file`) and the layout-resolution logic of
`load_file` (variant selection, truncation check, region-legality check,
segment creation, copy).  The companion header `nds.h` (the `nds_hdr` layout,
the `crc16tab` table and the static `memory` region table) is not part of the
sources; the definitions standing in for it are marked "Modelled from the
spec" below, and the region table is kept as an explicit parameter.

Machine integers are modelled as `Nat` with explicit `% 2 ^ 32` / `% 2 ^ 16`
where the C arithmetic wraps.
-/

/-- Modelled from the spec: one bit-step of the reflected CRC-16 generator
used to build the 256-entry lookup table `crc16tab` of `nds.h` (not in
`src/`): shift right by one and fold in the reflected polynomial `0xA001`
when the dropped bit was set. -/
def crcStep (c : Nat) : Nat :=
  if c &&& 1 = 1 then (c >>> 1) ^^^ 0xA001 else c >>> 1

/-- Modelled from the spec: the 256-entry CRC-16 lookup table `crc16tab` of
`nds.h` (not in `src/`).  Entry `i` is the byte-at-a-time CRC step applied to
`i`, i.e. eight bit-steps of the reflected generator. -/
def crc16tab (i : Nat) : Nat := crcStep^[8] i

/-- One iteration of the loop body of `CalcCRC16` (`nds.cpp` line 78):
`crc16 = (crc16 >> 8) ^ crc16tab[(crc16 ^ data) & 0xFF]`, stored back into a
16-bit `unsigned short`. -/
def crcRound (crc16 data : Nat) : Nat :=
  ((crc16 >>> 8) ^^^ crc16tab ((crc16 ^^^ data) &&& 0xFF)) % 2 ^ 16

/-- The `for (i = 0; i < 350; i++)` loop of `CalcCRC16`, reading byte `i` of
the raw header buffer each iteration. -/
def crcLoop (buf : List Nat) : Nat → Nat → Nat → Nat
  | _, 0, crc16 => crc16
  | i, fuel + 1, crc16 => crcLoop buf (i + 1) fuel (crcRound crc16 (buf.getD i 0))

/-- `CalcCRC16` (`nds.cpp` lines 72-81): CRC-16 of the first 350 raw bytes of
the header buffer, initial register `0xFFFF`. -/
def CalcCRC16 (ndshdr : List Nat) : Nat := crcLoop ndshdr 0 350 0xFFFF

/-- The checksum as worded by the spec: initialize a 16-bit register to
`0xFFFF`, then for each of exactly the first 350 raw bytes of the header
buffer, in order, update `crc = (crc >> 8) XOR table[(crc XOR byte) AND 0xFF]`. -/
def checksum (headerBytes : List Nat) : Nat :=
  (headerBytes.take 350).foldl
    (fun crc b => (crc >>> 8) ^^^ crc16tab ((crc ^^^ b) &&& 0xFF)) 0xFFFF

/-- Format-sniffing failure of the header decoder. -/
inductive FormatError
  | Truncated
deriving DecidableEq

/-- The fields of `nds_hdr` (`nds.h`) that the loader core reads. -/
structure nds_hdr where
  arm9_rom_offset : Nat
  arm9_entry_address : Nat
  arm9_ram_address : Nat
  arm9_size : Nat
  arm7_rom_offset : Nat
  arm7_entry_address : Nat
  arm7_ram_address : Nat
  arm7_size : Nat
  headerCRC16 : Nat
deriving DecidableEq

/-- Modelled from the spec: `sizeof(nds_hdr)`, the fixed size of the packed
header record of `nds.h` (not in `src/`): 512 bytes. -/
def ndsHdrSize : Nat := 512

/-- Read one raw byte of a file buffer. -/
def readByte (buf : List Nat) (off : Nat) : Nat := buf.getD off 0 % 256

/-- Read a little-endian 16-bit field at a fixed byte offset. -/
def readLE16 (buf : List Nat) (off : Nat) : Nat :=
  readByte buf off + 256 * readByte buf (off + 1)

/-- Read a little-endian 32-bit field at a fixed byte offset. -/
def readLE32 (buf : List Nat) (off : Nat) : Nat :=
  readByte buf off + 256 * readByte buf (off + 1) +
    65536 * readByte buf (off + 2) + 16777216 * readByte buf (off + 3)

/-- Modelled from the spec: the fixed little-endian layout of `nds_hdr`
(`nds.h`, not in `src/`): the two image descriptors at offsets `0x20`-`0x3F`
and `headerCRC16` at offset `0x15E`, immediately after the 350 bytes covered
by the checksum.  `decode` fails when fewer bytes than the fixed header size
are available, as `accept_file` does in `nds.cpp` lines 100-102. -/
def decode (buf : List Nat) : Except FormatError nds_hdr :=
  if buf.length < ndsHdrSize then .error .Truncated
  else .ok
    { arm9_rom_offset := readLE32 buf 0x20
      arm9_entry_address := readLE32 buf 0x24
      arm9_ram_address := readLE32 buf 0x28
      arm9_size := readLE32 buf 0x2C
      arm7_rom_offset := readLE32 buf 0x30
      arm7_entry_address := readLE32 buf 0x34
      arm7_ram_address := readLE32 buf 0x38
      arm7_size := readLE32 buf 0x3C
      headerCRC16 := readLE16 buf 0x15E }

/-- `accept_file` (`nds.cpp` lines 89-124): reject any invocation with
`n != 0`; reject files shorter than the header; otherwise read the header and
accept exactly when the computed CRC-16 matches the stored `headerCRC16`. -/
def accept_file (li : List Nat) (n : Nat) : Bool :=
  if n ≠ 0 then false
  else
    match decode li with
    | .error _ => false
    | .ok hdr => decide (CalcCRC16 li = hdr.headerCRC16)

/-- One entry of the static `memory` region table of `nds.h` (field `end`
renamed `end_`, `end` being reserved). -/
structure MEMARRAY where
  start : Nat
  end_ : Nat
deriving DecidableEq

/-- The externally supplied processor-variant choice (`askyn_cv` answer). -/
inductive Variant
  | arm9
  | arm7
deriving DecidableEq

/-- Fatal failures of the layout resolution in `load_file` (each a `qexit`). -/
inductive LayoutError
  | Truncated
  | IllegalMemoryWindow
deriving DecidableEq

/-- The outputs of a successful `load_file` layout resolution. -/
structure LoadPlan where
  processorTag : String
  startAddress : Nat
  endAddress : Nat
  romOffset : Nat
  entryAddress : Nat
deriving DecidableEq

/-- Per-variant entry address (`hdr.arm9_entry_address` / `hdr.arm7_entry_address`). -/
def entry_address (hdr : nds_hdr) : Variant → Nat
  | .arm9 => hdr.arm9_entry_address
  | .arm7 => hdr.arm7_entry_address

/-- Per-variant RAM base address (`hdr.arm9_ram_address` / `hdr.arm7_ram_address`). -/
def ram_address (hdr : nds_hdr) : Variant → Nat
  | .arm9 => hdr.arm9_ram_address
  | .arm7 => hdr.arm7_ram_address

/-- Per-variant image size (`hdr.arm9_size` / `hdr.arm7_size`). -/
def image_size (hdr : nds_hdr) : Variant → Nat
  | .arm9 => hdr.arm9_size
  | .arm7 => hdr.arm7_size

/-- Per-variant ROM offset (`hdr.arm9_rom_offset` / `hdr.arm7_rom_offset`). -/
def rom_offset (hdr : nds_hdr) : Variant → Nat
  | .arm9 => hdr.arm9_rom_offset
  | .arm7 => hdr.arm7_rom_offset

/-- Processor type selected per branch of `load_file`. -/
def processor_tag : Variant → String
  | .arm9 => "ARM"
  | .arm7 => "ARM710A"

/-- The region-legality loop of `load_file` (`nds.cpp` lines 201-213): scan
the region table and succeed on the first entry with
`startEA >= memory[i].start || endEA <= memory[i].end`. -/
def found_mem_block (memory : List MEMARRAY) (startEA endEA : Nat) : Bool :=
  memory.any fun r => decide (startEA ≥ r.start) || decide (endEA ≤ r.end_)

/-- The layout-resolution core of `load_file` (`nds.cpp` lines 169-233) over
an explicit region table: select the variant's descriptor, truncation-check
`qlsize(li) < offset + size` in 32-bit arithmetic, region-check the window
`[startEA, endEA)` with `endEA = ram + size` in 32-bit arithmetic, and on
success return the plan handed to the segment/copy steps. -/
def resolve (memory : List MEMARRAY) (hdr : nds_hdr) (v : Variant) (filelen : Nat) :
    Except LayoutError LoadPlan :=
  let startEA := ram_address hdr v
  let endEA := (ram_address hdr v + image_size hdr v) % 2 ^ 32
  let offset := rom_offset hdr v
  if filelen < (offset + image_size hdr v) % 2 ^ 32 then
    .error .Truncated
  else if found_mem_block memory startEA endEA then
    .ok { processorTag := processor_tag v, startAddress := startEA, endAddress := endEA,
          romOffset := offset, entryAddress := entry_address hdr v }
  else
    .error .IllegalMemoryWindow

/-- Observable side effects of `load_file` after the checks pass. -/
inductive LoadEvent
  | setSelector (sel base : Nat)
  | addSegm (para start end_ : Nat) (name cls : String)
  | setAddressing (ea bitness : Nat)
  | copyToBase (offset startEA endEA : Nat)
deriving DecidableEq

/-- Does an event create a segment? -/
def LoadEvent.isAddSegm : LoadEvent → Bool
  | .addSegm _ _ _ _ _ => true
  | _ => false

/-- Does an event copy file bytes into the address space? -/
def LoadEvent.isCopy : LoadEvent → Bool
  | .copyToBase _ _ _ => true
  | _ => false

/-- The effect sequence of `load_file` (`nds.cpp` lines 215-231): after the
checks pass, map the selector, create one `CODE`-class segment per entry of
the region table, enable 32-bit addressing at the window start, and last copy
the file range into `[startEA, endEA)` via `file2base`. -/
def load_events (memory : List MEMARRAY) (hdr : nds_hdr) (v : Variant) (filelen : Nat) :
    Except LayoutError (List LoadEvent) :=
  match resolve memory hdr v filelen with
  | .error e => .error e
  | .ok plan =>
    .ok ((LoadEvent.setSelector 1 0 ::
          memory.map (fun r => LoadEvent.addSegm 1 r.start r.end_ "RAM" "CODE") ++
          [LoadEvent.setAddressing plan.startAddress 1]) ++
         [LoadEvent.copyToBase plan.romOffset plan.startAddress plan.endAddress])

/-- The one region the spec names concretely: `{0x02000000, 0x023FFFFF}`, the
main RAM window. -/
def regionMain : MEMARRAY := ⟨0x02000000, 0x023FFFFF⟩

/-- The end-to-end scenario header of the spec: ARM9 descriptor
`{entry 0x02004000, ram 0x02000000, size 0x1000, romOffset 0x4000}`. -/
def hdrScenario : nds_hdr :=
  { arm9_rom_offset := 0x4000
    arm9_entry_address := 0x02004000
    arm9_ram_address := 0x02000000
    arm9_size := 0x1000
    arm7_rom_offset := 0
    arm7_entry_address := 0
    arm7_ram_address := 0
    arm7_size := 0
    headerCRC16 := 0 }

/-- The plan the scenario must produce. -/
def planScenario : LoadPlan :=
  { processorTag := "ARM"
    startAddress := 0x02000000
    endAddress := 0x02001000
    romOffset := 0x4000
    entryAddress := 0x02004000 }

/-- A header whose ARM9 source range wraps around 2^32:
`romOffset + size = 0x100001000`, wrapped to `0x1000`. -/
def hdrWrapOffset : nds_hdr :=
  { arm9_rom_offset := 0xFFFFF000
    arm9_entry_address := 0
    arm9_ram_address := 0x02000000
    arm9_size := 0x2000
    arm7_rom_offset := 0
    arm7_entry_address := 0
    arm7_ram_address := 0
    arm7_size := 0
    headerCRC16 := 0 }

/-- A header whose ARM9 destination window wraps around 2^32:
`ram + size = 0x100000001`, wrapped to `0x1`. -/
def hdrWrapRam : nds_hdr :=
  { arm9_rom_offset := 0
    arm9_entry_address := 0
    arm9_ram_address := 0xFFFFFFFF
    arm9_size := 2
    arm7_rom_offset := 0
    arm7_entry_address := 0
    arm7_ram_address := 0
    arm7_size := 0
    headerCRC16 := 0 }

/-- A header-sized all-zero file whose stored `headerCRC16` (bytes 350/351,
little endian) has been patched to the CRC-16 of its first 350 bytes
(`0x1BCC`), so `accept_file` accepts it. -/
def fileAccepted : List Nat := ((List.replicate 512 0).set 350 0xCC).set 351 0x1B

/-- A region disjoint from (and above/below) the scenario window, so the
region-legality test fails on it. -/
def regionBad : MEMARRAY := ⟨0x05000000, 0x01000000⟩

/-- The plan `resolve` returns for `hdrWrapRam`: the destination end address
has wrapped to `1`. -/
def planWrapRam : LoadPlan :=
  { processorTag := "ARM"
    startAddress := 0xFFFFFFFF
    endAddress := 1
    romOffset := 0
    entryAddress := 0 }

/-- The plan `resolve` returns for `hdrWrapOffset`: accepted although the
true source range `[0xFFFFF000, 0x100001000)` exceeds the file. -/
def planWrapOffset : LoadPlan :=
  { processorTag := "ARM"
    startAddress := 0x02000000
    endAddress := 0x02002000
    romOffset := 0xFFFFF000
    entryAddress := 0 }

/-- The event sequence of the successful end-to-end scenario. -/
def evsScenario : List LoadEvent :=
  [.setSelector 1 0,
   .addSegm 1 0x02000000 0x023FFFFF "RAM" "CODE",
   .setAddressing 0x02000000 1,
   .copyToBase 0x4000 0x02000000 0x02001000]

set_option maxRecDepth 20000

/-! ### Bitwise helper lemmas -/

theorem xor_shiftRight (a b n : Nat) : (a ^^^ b) >>> n = a >>> n ^^^ b >>> n := by
  apply Nat.eq_of_testBit_eq
  intro i
  simp [Nat.testBit_shiftRight, Nat.testBit_xor]

theorem xor_and (a b m : Nat) : (a ^^^ b) &&& m = (a &&& m) ^^^ (b &&& m) := by
  apply Nat.eq_of_testBit_eq
  intro i
  simp only [Nat.testBit_and, Nat.testBit_xor]
  cases a.testBit i <;> cases b.testBit i <;> cases m.testBit i <;> rfl

theorem xor_rearrange (p q r s : Nat) :
    (p ^^^ q) ^^^ (r ^^^ s) = (p ^^^ r) ^^^ (q ^^^ s) := by
  apply Nat.eq_of_testBit_eq
  intro i
  simp only [Nat.testBit_xor]
  cases p.testBit i <;> cases q.testBit i <;> cases r.testBit i <;> cases s.testBit i <;> rfl

theorem xor_eq_zero_iff {a b : Nat} : a ^^^ b = 0 ↔ a = b := by
  constructor
  · intro h
    have h2 : a ^^^ (a ^^^ b) = a ^^^ 0 := by rw [h]
    rwa [← Nat.xor_assoc, Nat.xor_self, Nat.zero_xor, Nat.xor_zero, eq_comm] at h2
  · intro h
    rw [h, Nat.xor_self]

theorem xor_cancel_xor (a b : Nat) : a ^^^ (b ^^^ a) = b := by
  rw [Nat.xor_comm b a, ← Nat.xor_assoc, Nat.xor_self, Nat.zero_xor]

theorem shiftRight8_shiftLeft8_xor_and (x : Nat) :
    ((x >>> 8) <<< 8) ^^^ (x &&& 0xFF) = x := by
  apply Nat.eq_of_testBit_eq
  intro i
  simp only [Nat.testBit_xor, Nat.testBit_shiftLeft, Nat.testBit_shiftRight, Nat.testBit_and]
  have h255 : (0xFF : Nat) = 2 ^ 8 - 1 := by norm_num
  rw [h255, Nat.testBit_two_pow_sub_one]
  by_cases hi : 8 ≤ i
  · have : 8 + (i - 8) = i := by omega
    simp [hi, this, Nat.not_lt.mpr hi]
  · simp [hi, Nat.lt_of_not_le hi]

/-! ### CRC step theory -/

theorem crcStep_xor (a b : Nat) : crcStep (a ^^^ b) = crcStep a ^^^ crcStep b := by
  have hab : (a ^^^ b) &&& 1 = (a &&& 1) ^^^ (b &&& 1) := xor_and a b 1
  have hsr := xor_shiftRight a b 1
  have hA := Nat.and_one_is_mod a
  have hB := Nat.and_one_is_mod b
  unfold crcStep
  rcases Nat.mod_two_eq_zero_or_one a with ha | ha <;>
    rcases Nat.mod_two_eq_zero_or_one b with hb | hb
  · rw [if_neg (by rw [hab, hA, hB, ha, hb]; decide), if_neg (by rw [hA, ha]; decide),
      if_neg (by rw [hB, hb]; decide), hsr]
  · rw [if_pos (by rw [hab, hA, hB, ha, hb]; decide), if_neg (by rw [hA, ha]; decide),
      if_pos (by rw [hB, hb]), hsr, Nat.xor_assoc]
  · rw [if_pos (by rw [hab, hA, hB, ha, hb]; decide), if_pos (by rw [hA, ha]),
      if_neg (by rw [hB, hb]; decide), hsr, Nat.xor_assoc, Nat.xor_assoc,
      Nat.xor_comm (b >>> 1) 0xA001]
  · rw [if_neg (by rw [hab, hA, hB, ha, hb]; decide), if_pos (by rw [hA, ha]),
      if_pos (by rw [hB, hb]), hsr, xor_rearrange (a >>> 1) 0xA001 (b >>> 1) 0xA001,
      Nat.xor_self, Nat.xor_zero]

theorem crcStep_lt {c : Nat} (h : c < 2 ^ 16) : crcStep c < 2 ^ 16 := by
  unfold crcStep
  have h1 : c >>> 1 < 2 ^ 16 := by
    rw [Nat.shiftRight_eq_div_pow]
    exact Nat.lt_of_le_of_lt (Nat.div_le_self c (2 ^ 1)) h
  split
  · exact Nat.xor_lt_two_pow h1 (by norm_num)
  · exact h1

theorem crcStep_ne_zero {c : Nat} (hlt : c < 2 ^ 16) (h0 : c ≠ 0) : crcStep c ≠ 0 := by
  unfold crcStep
  have hdiv : c >>> 1 = c / 2 := by rw [Nat.shiftRight_eq_div_pow, Nat.pow_one]
  rw [Nat.and_one_is_mod]
  split
  · intro habs
    have : c >>> 1 = 0xA001 := xor_eq_zero_iff.mp habs
    rw [hdiv] at this
    omega
  · intro habs
    rw [hdiv] at habs
    omega

theorem crcStepIter_xor (n a b : Nat) :
    crcStep^[n] (a ^^^ b) = crcStep^[n] a ^^^ crcStep^[n] b := by
  induction n generalizing a b with
  | zero => rfl
  | succ m ih =>
    rw [Function.iterate_succ_apply, Function.iterate_succ_apply,
      Function.iterate_succ_apply, crcStep_xor, ih]

theorem crcStepIter_lt {c : Nat} (n : Nat) (h : c < 2 ^ 16) : crcStep^[n] c < 2 ^ 16 := by
  induction n generalizing c with
  | zero => exact h
  | succ m ih => rw [Function.iterate_succ_apply]; exact ih (crcStep_lt h)

theorem crcStepIter_ne_zero {c : Nat} (n : Nat) (hlt : c < 2 ^ 16) (h0 : c ≠ 0) :
    crcStep^[n] c ≠ 0 := by
  induction n generalizing c with
  | zero => exact h0
  | succ m ih =>
    rw [Function.iterate_succ_apply]
    exact ih (crcStep_lt hlt) (crcStep_ne_zero hlt h0)

theorem crcStep_two_mul (y : Nat) : crcStep (2 * y) = y := by
  unfold crcStep
  rw [if_neg (by rw [Nat.and_one_is_mod]; omega), Nat.shiftRight_eq_div_pow, Nat.pow_one]
  omega

theorem crcStepIter_mul_two_pow (n y : Nat) : crcStep^[n] (y * 2 ^ n) = y := by
  induction n generalizing y with
  | zero => simp
  | succ m ih =>
    rw [Function.iterate_succ_apply]
    have : y * 2 ^ (m + 1) = 2 * (y * 2 ^ m) := by ring
    rw [this, crcStep_two_mul, ih]

theorem crcStepIter8_eq (x : Nat) :
    crcStep^[8] x = (x >>> 8) ^^^ crc16tab (x &&& 0xFF) := by
  conv_lhs => rw [← shiftRight8_shiftLeft8_xor_and x]
  rw [crcStepIter_xor, Nat.shiftLeft_eq, crcStepIter_mul_two_pow]
  rfl

theorem crc16tab_xor (a b : Nat) : crc16tab (a ^^^ b) = crc16tab a ^^^ crc16tab b :=
  crcStepIter_xor 8 a b

theorem crc16tab_lt {i : Nat} (h : i < 2 ^ 16) : crc16tab i < 2 ^ 16 :=
  crcStepIter_lt 8 h

theorem crc16tab_ne_zero {i : Nat} (hlt : i < 2 ^ 16) (h0 : i ≠ 0) : crc16tab i ≠ 0 :=
  crcStepIter_ne_zero 8 hlt h0

/-! ### CRC round and loop theory -/

theorem and_0xFF_lt (x : Nat) : x &&& 0xFF < 2 ^ 16 := by
  have h255 : (0xFF : Nat) = 2 ^ 8 - 1 := by norm_num
  rw [h255, Nat.and_pow_two_sub_one_eq_mod]
  have := Nat.mod_lt x (y := 2 ^ 8) (by norm_num)
  omega

theorem crcRound_eq {c : Nat} (hc : c < 2 ^ 16) (b : Nat) :
    crcRound c b = (c >>> 8) ^^^ crc16tab ((c ^^^ b) &&& 0xFF) := by
  unfold crcRound
  apply Nat.mod_eq_of_lt
  apply Nat.xor_lt_two_pow
  · rw [Nat.shiftRight_eq_div_pow]
    exact Nat.lt_of_le_of_lt (Nat.div_le_self c (2 ^ 8)) hc
  · exact crc16tab_lt (and_0xFF_lt _)

theorem crcRound_lt (c b : Nat) : crcRound c b < 2 ^ 16 :=
  Nat.mod_lt _ (by norm_num)

theorem crcRound_xor_crcRound {c c' : Nat} (hc : c < 2 ^ 16) (hc' : c' < 2 ^ 16) (b : Nat) :
    crcRound c b ^^^ crcRound c' b = crcStep^[8] (c ^^^ c') := by
  rw [crcRound_eq hc, crcRound_eq hc', xor_rearrange, ← xor_shiftRight, ← crc16tab_xor,
    ← xor_and]
  have hbb : (c ^^^ b) ^^^ (c' ^^^ b) = c ^^^ c' := by
    rw [xor_rearrange, Nat.xor_self, Nat.xor_zero]
  rw [hbb, crcStepIter8_eq]

theorem crcRound_flip {c : Nat} (hc : c < 2 ^ 16) {k : Nat} (hk : k < 8) (b : Nat) :
    crcRound c (b ^^^ 2 ^ k) ^^^ crcRound c b = crc16tab (2 ^ k) := by
  rw [crcRound_eq hc, crcRound_eq hc, xor_rearrange, Nat.xor_self, Nat.zero_xor,
    ← crc16tab_xor, ← xor_and]
  have h1 : (c ^^^ (b ^^^ 2 ^ k)) ^^^ (c ^^^ b) = 2 ^ k := by
    rw [xor_rearrange, Nat.xor_self, Nat.zero_xor, Nat.xor_comm b (2 ^ k), Nat.xor_assoc,
      Nat.xor_self, Nat.xor_zero]
  rw [h1]
  have h2 : (2 : Nat) ^ k < 2 ^ 8 := Nat.pow_lt_pow_right (by norm_num) hk
  have h255 : (0xFF : Nat) = 2 ^ 8 - 1 := by norm_num
  rw [h255, Nat.and_pow_two_sub_one_of_lt_two_pow h2]

theorem crc16tab_two_pow_ne_zero {k : Nat} (hk : k < 8) : crc16tab (2 ^ k) ≠ 0 := by
  apply crc16tab_ne_zero
  · calc (2 : Nat) ^ k < 2 ^ 8 := Nat.pow_lt_pow_right (by norm_num) hk
      _ < 2 ^ 16 := by norm_num
  · exact (Nat.two_pow_pos k).ne'

theorem crcLoop_congr (buf1 buf2 : List Nat) (fuel : Nat) :
    ∀ (i c : Nat), (∀ m, i ≤ m → m < i + fuel → buf1.getD m 0 = buf2.getD m 0) →
    crcLoop buf1 i fuel c = crcLoop buf2 i fuel c := by
  induction fuel with
  | zero => intro i c _; rfl
  | succ n ih =>
    intro i c h
    simp only [crcLoop]
    rw [h i (Nat.le_refl i) (by omega)]
    exact ih (i + 1) _ (fun m hm1 hm2 => h m (by omega) (by omega))

theorem crcLoop_ne (buf : List Nat) (fuel : Nat) :
    ∀ (i c c' : Nat), c < 2 ^ 16 → c' < 2 ^ 16 → c ≠ c' →
    crcLoop buf i fuel c ≠ crcLoop buf i fuel c' := by
  induction fuel with
  | zero => intro i c c' _ _ hne; exact hne
  | succ n ih =>
    intro i c c' hc hc' hne
    simp only [crcLoop]
    apply ih (i + 1) _ _ (crcRound_lt c _) (crcRound_lt c' _)
    intro heq
    have h0 : crcRound c (buf.getD i 0) ^^^ crcRound c' (buf.getD i 0) = 0 := by
      rw [heq, Nat.xor_self]
    rw [crcRound_xor_crcRound hc hc'] at h0
    exact crcStepIter_ne_zero 8 (Nat.xor_lt_two_pow hc hc')
      (fun hz => hne (xor_eq_zero_iff.mp hz)) h0

theorem crcLoop_flip (buf : List Nat) (j k : Nat) (hj : j < buf.length) (hk : k < 8)
    (fuel : Nat) :
    ∀ (i c : Nat), c < 2 ^ 16 → i ≤ j → j < i + fuel →
    crcLoop (buf.set j (buf.getD j 0 ^^^ 2 ^ k)) i fuel c ≠ crcLoop buf i fuel c := by
  induction fuel with
  | zero => intro i c _ h1 h2; exact absurd h2 (by omega)
  | succ n ih =>
    intro i c hc hij hjf
    simp only [crcLoop]
    by_cases hieq : i = j
    · subst hieq
      have hset : (buf.set i (buf.getD i 0 ^^^ 2 ^ k)).getD i 0 = buf.getD i 0 ^^^ 2 ^ k := by
        simp [List.getD_eq_getElem?_getD, List.getElem?_set_self hj]
      rw [hset]
      have hcongr : crcLoop (buf.set i (buf.getD i 0 ^^^ 2 ^ k)) (i + 1) n
          (crcRound c (buf.getD i 0 ^^^ 2 ^ k)) =
          crcLoop buf (i + 1) n (crcRound c (buf.getD i 0 ^^^ 2 ^ k)) :=
        crcLoop_congr _ _ n (i + 1) _ (fun m hm1 _ => by
          simp [List.getD_eq_getElem?_getD, List.getElem?_set_ne (by omega : i ≠ m)])
      rw [hcongr]
      apply crcLoop_ne buf n (i + 1) _ _ (crcRound_lt c _) (crcRound_lt c _)
      intro heq
      have h0 : crcRound c (buf.getD i 0 ^^^ 2 ^ k) ^^^ crcRound c (buf.getD i 0) = 0 := by
        rw [heq, Nat.xor_self]
      rw [crcRound_flip hc hk] at h0
      exact crc16tab_two_pow_ne_zero hk h0
    · have hbyte : (buf.set j (buf.getD j 0 ^^^ 2 ^ k)).getD i 0 = buf.getD i 0 := by
        simp [List.getD_eq_getElem?_getD, List.getElem?_set_ne (by omega : j ≠ i)]
      rw [hbyte]
      exact ih (i + 1) _ (crcRound_lt c _) (by omega) (by omega)

theorem crcLoop_eq_foldl (buf : List Nat) (fuel : Nat) :
    ∀ (i c : Nat), i + fuel ≤ buf.length → c < 2 ^ 16 →
    crcLoop buf i fuel c =
      ((buf.drop i).take fuel).foldl
        (fun crc b => (crc >>> 8) ^^^ crc16tab ((crc ^^^ b) &&& 0xFF)) c := by
  induction fuel with
  | zero => intro i c _ _; rfl
  | succ n ih =>
    intro i c hlen hc
    have hi : i < buf.length := by omega
    have hbyte : buf.getD i 0 = buf[i] := by
      simp [List.getD_eq_getElem?_getD, List.getElem?_eq_getElem hi]
    rw [List.drop_eq_getElem_cons hi, List.take_succ_cons, List.foldl_cons]
    simp only [crcLoop]
    rw [hbyte, ih (i + 1) (crcRound c buf[i]) (by omega) (crcRound_lt c _), crcRound_eq hc]

/-! ### Resolve inversion lemmas -/

theorem resolve_eq_ok_iff (memory : List MEMARRAY) (hdr : nds_hdr) (v : Variant)
    (filelen : Nat) (p : LoadPlan) :
    resolve memory hdr v filelen = .ok p ↔
      ¬ filelen < (rom_offset hdr v + image_size hdr v) % 2 ^ 32 ∧
      found_mem_block memory (ram_address hdr v)
        ((ram_address hdr v + image_size hdr v) % 2 ^ 32) = true ∧
      p = { processorTag := processor_tag v, startAddress := ram_address hdr v,
            endAddress := (ram_address hdr v + image_size hdr v) % 2 ^ 32,
            romOffset := rom_offset hdr v, entryAddress := entry_address hdr v } := by
  unfold resolve
  dsimp only
  split_ifs with h1 h2
  · constructor
    · intro h; exact absurd h (by simp)
    · rintro ⟨hn, -, -⟩; exact absurd h1 hn
  · constructor
    · intro h; exact ⟨h1, h2, (Except.ok.inj h).symm⟩
    · rintro ⟨-, -, hp⟩; rw [hp]
  · constructor
    · intro h; exact absurd h (by simp)
    · rintro ⟨-, hf, -⟩; exact absurd hf h2

theorem resolve_truncated_iff (memory : List MEMARRAY) (hdr : nds_hdr) (v : Variant)
    (filelen : Nat) :
    resolve memory hdr v filelen = .error .Truncated ↔
      filelen < (rom_offset hdr v + image_size hdr v) % 2 ^ 32 := by
  unfold resolve
  dsimp only
  split_ifs with h1 h2
  · exact iff_of_true rfl h1
  · exact iff_of_false (by simp) h1
  · exact iff_of_false (by simp) h1

theorem resolve_illegal (memory : List MEMARRAY) (hdr : nds_hdr) (v : Variant)
    (filelen : Nat)
    (hnf : found_mem_block memory (ram_address hdr v)
      ((ram_address hdr v + image_size hdr v) % 2 ^ 32) = false)
    (hnt : ¬ filelen < (rom_offset hdr v + image_size hdr v) % 2 ^ 32) :
    resolve memory hdr v filelen = .error .IllegalMemoryWindow := by
  unfold resolve
  dsimp only
  split_ifs with h1
  · rw [hnf] at h1; exact absurd h1 (by simp)
  · rfl

theorem found_mem_block_iff (memory : List MEMARRAY) (s e : Nat) :
    found_mem_block memory s e = true ↔ ∃ r ∈ memory, s ≥ r.start ∨ e ≤ r.end_ := by
  simp [found_mem_block, List.any_eq_true, ge_iff_le]

/-- C1: the region-legality check accepts `[startAddress, endAddress)` iff
some region `r` of the table satisfies `startAddress >= r.start OR
endAddress <= r.end` (a disjunction, not containment); any window whose start
clears some region's start is accepted regardless of its end; if no region
satisfies the test, `resolve` fails with `IllegalMemoryWindow` and returns no
plan. -/
theorem region_legality_or_semantics (memory : List MEMARRAY) (hdr : nds_hdr)
    (v : Variant) (filelen s e : Nat) :
    (found_mem_block memory s e = true ↔ ∃ r ∈ memory, s ≥ r.start ∨ e ≤ r.end_) ∧
    (∀ r ∈ memory, s ≥ r.start → ∀ endEA, found_mem_block memory s endEA = true) ∧
    (found_mem_block memory (ram_address hdr v)
        ((ram_address hdr v + image_size hdr v) % 2 ^ 32) = false →
      (∀ p, resolve memory hdr v filelen ≠ .ok p) ∧
      (¬ filelen < (rom_offset hdr v + image_size hdr v) % 2 ^ 32 →
        resolve memory hdr v filelen = .error .IllegalMemoryWindow)) := by
  refine ⟨found_mem_block_iff memory s e, ?_, ?_⟩
  · intro r hr hge endEA
    rw [found_mem_block_iff]
    exact ⟨r, hr, Or.inl hge⟩
  · intro hnf
    constructor
    · intro p hok
      obtain ⟨-, hf, -⟩ := (resolve_eq_ok_iff memory hdr v filelen p).mp hok
      rw [hnf] at hf
      exact absurd hf (by simp)
    · intro hnt
      exact resolve_illegal memory hdr v filelen hnf hnt

theorem region_legality_or_semantics_witness :
    (regionMain ∈ [regionMain] ∧ (0x02000000 : Nat) ≥ regionMain.start ∧
      found_mem_block [regionMain] 0x02000000 0x0F000000 = true) ∧
    (found_mem_block [regionBad] (ram_address hdrScenario .arm9)
        ((ram_address hdrScenario .arm9 + image_size hdrScenario .arm9) % 2 ^ 32) = false ∧
      ¬ (0x6000 : Nat) < (rom_offset hdrScenario .arm9 + image_size hdrScenario .arm9) % 2 ^ 32 ∧
      resolve [regionBad] hdrScenario .arm9 0x6000 = .error .IllegalMemoryWindow) :=
  ⟨⟨by decide, by decide,
    (region_legality_or_semantics [regionMain] hdrScenario .arm9 0x6000 0x02000000 0).2.1
      regionMain (by decide) (by decide) 0x0F000000⟩,
   ⟨by decide, by decide,
    ((region_legality_or_semantics [regionBad] hdrScenario .arm9 0x6000 0 0).2.2
      (by decide)).2 (by decide)⟩⟩

/-- C4 (amended): `resolve` fails with `Truncated` exactly when the 32-bit
wrapped sum `(romOffset + size) mod 2^32` exceeds the file length; in
particular, when `romOffset + size` does not overflow 32 bits, whenever
`romOffset + size > fileLength`. -/
theorem truncation_requires_wrapped_sum (memory : List MEMARRAY) (hdr : nds_hdr)
    (v : Variant) (filelen : Nat) :
    (filelen < (rom_offset hdr v + image_size hdr v) % 2 ^ 32 →
      resolve memory hdr v filelen = .error .Truncated ∧
      ∀ p, resolve memory hdr v filelen ≠ .ok p) ∧
    (rom_offset hdr v + image_size hdr v < 2 ^ 32 →
      filelen < rom_offset hdr v + image_size hdr v →
      resolve memory hdr v filelen = .error .Truncated) := by
  constructor
  · intro h
    refine ⟨(resolve_truncated_iff memory hdr v filelen).mpr h, ?_⟩
    intro p hok
    exact ((resolve_eq_ok_iff memory hdr v filelen p).mp hok).1 h
  · intro hlt hgt
    exact (resolve_truncated_iff memory hdr v filelen).mpr (by rwa [Nat.mod_eq_of_lt hlt])

theorem truncation_requires_wrapped_sum_witness :
    ((0x3000 : Nat) < (rom_offset hdrScenario .arm9 + image_size hdrScenario .arm9) % 2 ^ 32 ∧
      resolve [regionMain] hdrScenario .arm9 0x3000 = .error .Truncated) ∧
    (rom_offset hdrScenario .arm9 + image_size hdrScenario .arm9 < 2 ^ 32 ∧
      (0x3000 : Nat) < rom_offset hdrScenario .arm9 + image_size hdrScenario .arm9 ∧
      resolve [regionMain] hdrScenario .arm9 0x3000 = .error .Truncated) :=
  ⟨⟨by decide,
    ((truncation_requires_wrapped_sum [regionMain] hdrScenario .arm9 0x3000).1 (by decide)).1⟩,
   ⟨by decide, by decide,
    (truncation_requires_wrapped_sum [regionMain] hdrScenario .arm9 0x3000).2
      (by decide) (by decide)⟩⟩

/-- C4 (counterexample): a header whose true source range exceeds the file
(`romOffset + size = 0x100001000 > 0x100000`) is nevertheless accepted,
because the truncation check compares the 32-bit wrapped sum `0x1000`. -/
theorem truncation_wraparound_counterexample :
    rom_offset hdrWrapOffset .arm9 + image_size hdrWrapOffset .arm9 > 0x100000 ∧
    resolve [regionMain] hdrWrapOffset .arm9 0x100000 = .ok planWrapOffset :=
  ⟨by decide, rfl⟩

/-- C5: every buffer shorter than the fixed header size is rejected by
`decode` with `FormatError.Truncated`, and no header is produced. -/
theorem decode_short_truncated (buf : List Nat) (h : buf.length < ndsHdrSize) :
    decode buf = .error .Truncated ∧ ∀ hdr, decode buf ≠ .ok hdr := by
  constructor
  · unfold decode; rw [if_pos h]
  · intro hdr hok
    unfold decode at hok
    rw [if_pos h] at hok
    exact absurd hok (by simp)

theorem decode_short_truncated_witness :
    (List.replicate 10 0).length < ndsHdrSize ∧
    decode (List.replicate 10 0) = .error .Truncated :=
  ⟨by decide, (decode_short_truncated _ (by decide)).1⟩

/-- C7 (amended): every successful `resolve` returns the plan's fields
verbatim from the selected descriptor, with
`endAddress = (ramAddress + size) mod 2^32`; the spec's end-to-end scenario
succeeds with plan `{start 0x02000000, end 0x02001000, romOffset 0x4000,
entry 0x02004000}` although the entry lies outside the window. -/
theorem plan_fields_verbatim (memory : List MEMARRAY) (hdr : nds_hdr) (v : Variant)
    (filelen : Nat) (p : LoadPlan) :
    (resolve memory hdr v filelen = .ok p →
      p.processorTag = processor_tag v ∧
      p.startAddress = ram_address hdr v ∧
      p.endAddress = (ram_address hdr v + image_size hdr v) % 2 ^ 32 ∧
      p.romOffset = rom_offset hdr v ∧
      p.entryAddress = entry_address hdr v) ∧
    (regionMain ∈ memory → resolve memory hdrScenario .arm9 0x6000 = .ok planScenario) ∧
    ¬ (planScenario.startAddress ≤ planScenario.entryAddress ∧
        planScenario.entryAddress < planScenario.endAddress) := by
  refine ⟨?_, ?_, by decide⟩
  · intro hok
    obtain ⟨-, -, hp⟩ := (resolve_eq_ok_iff memory hdr v filelen p).mp hok
    rw [hp]
    exact ⟨rfl, rfl, rfl, rfl, rfl⟩
  · intro hmem
    rw [resolve_eq_ok_iff]
    refine ⟨by decide, ?_, by decide⟩
    rw [found_mem_block_iff]
    exact ⟨regionMain, hmem, Or.inl (by decide)⟩

theorem plan_fields_verbatim_witness :
    (resolve [regionMain] hdrScenario .arm9 0x6000 = .ok planScenario ∧
      planScenario.processorTag = processor_tag .arm9 ∧
      planScenario.startAddress = ram_address hdrScenario .arm9 ∧
      planScenario.endAddress =
        (ram_address hdrScenario .arm9 + image_size hdrScenario .arm9) % 2 ^ 32 ∧
      planScenario.romOffset = rom_offset hdrScenario .arm9 ∧
      planScenario.entryAddress = entry_address hdrScenario .arm9) ∧
    regionMain ∈ [regionMain] ∧
    resolve [regionMain] hdrScenario .arm9 0x6000 = .ok planScenario :=
  ⟨⟨rfl, (plan_fields_verbatim [regionMain] hdrScenario .arm9 0x6000 planScenario).1 rfl⟩,
   by decide,
   (plan_fields_verbatim [regionMain] hdrScenario .arm9 0x6000 planScenario).2.1 (by decide)⟩

/-- C7 (counterexample): a successful `resolve` whose `endAddress` is not
`ramAddress + size`: with `ram = 0xFFFFFFFF` and `size = 2` the returned end
address is the wrapped value `1`, not `0x100000001`. -/
theorem plan_end_address_wrap_counterexample :
    resolve [regionMain] hdrWrapRam .arm9 2 = .ok planWrapRam ∧
    planWrapRam.endAddress ≠ ram_address hdrWrapRam .arm9 + image_size hdrWrapRam .arm9 :=
  ⟨rfl, by decide⟩

/-- C9: `resolve` works in 32-bit modular arithmetic: the returned end
address is `(ramAddress + size) mod 2^32`, the truncation test is exactly
`fileLength < (romOffset + size) mod 2^32`, and a header with
`romOffset + size >= 2^32` whose true source range exceeds the file length is
nevertheless accepted. -/
theorem resolve_modular_wraparound :
    (∀ (memory : List MEMARRAY) (hdr : nds_hdr) (v : Variant) (filelen : Nat) (p : LoadPlan),
      resolve memory hdr v filelen = .ok p →
      p.endAddress = (ram_address hdr v + image_size hdr v) % 2 ^ 32) ∧
    (∀ (memory : List MEMARRAY) (hdr : nds_hdr) (v : Variant) (filelen : Nat),
      resolve memory hdr v filelen = .error .Truncated ↔
        filelen < (rom_offset hdr v + image_size hdr v) % 2 ^ 32) ∧
    (∃ p : LoadPlan,
      2 ^ 32 ≤ rom_offset hdrWrapOffset .arm9 + image_size hdrWrapOffset .arm9 ∧
      0x100000 < rom_offset hdrWrapOffset .arm9 + image_size hdrWrapOffset .arm9 ∧
      resolve [regionMain] hdrWrapOffset .arm9 0x100000 = .ok p) := by
  refine ⟨?_, resolve_truncated_iff, ⟨planWrapOffset, by decide, by decide, rfl⟩⟩
  intro memory hdr v filelen p hok
  obtain ⟨-, -, hp⟩ := (resolve_eq_ok_iff memory hdr v filelen p).mp hok
  rw [hp]

theorem resolve_modular_wraparound_witness :
    resolve [regionMain] hdrWrapRam .arm9 2 = .ok planWrapRam ∧
    planWrapRam.endAddress =
      (ram_address hdrWrapRam .arm9 + image_size hdrWrapRam .arm9) % 2 ^ 32 :=
  ⟨rfl, resolve_modular_wraparound.1 [regionMain] hdrWrapRam .arm9 2 planWrapRam rfl⟩

/-- C10: with a nonzero invocation index the format-acceptance entry point
returns `false` for every file, independently of the file's contents;
acceptance is only possible at invocation `0`. -/
theorem accept_file_first_invocation_only :
    (∀ (li : List Nat) (n : Nat), n ≠ 0 → accept_file li n = false) ∧
    (∀ (li li2 : List Nat) (n : Nat), n ≠ 0 → accept_file li n = accept_file li2 n) ∧
    (∀ (li : List Nat) (n : Nat), accept_file li n = true → n = 0) := by
  have h1 : ∀ (li : List Nat) (n : Nat), n ≠ 0 → accept_file li n = false := by
    intro li n hn
    unfold accept_file
    rw [if_pos hn]
  refine ⟨h1, fun li li2 n hn => by rw [h1 li n hn, h1 li2 n hn], ?_⟩
  intro li n htrue
  by_contra hn
  rw [h1 li n hn] at htrue
  exact absurd htrue (by simp)

theorem accept_file_first_invocation_only_witness :
    (1 : Nat) ≠ 0 ∧ accept_file [] 1 = false :=
  ⟨by decide, accept_file_first_invocation_only.1 [] 1 (by decide)⟩

/-- C2: `CalcCRC16` computes exactly the algorithm of the spec: a 16-bit
register initialized to `0xFFFF`, updated as
`crc = (crc >> 8) XOR table[(crc XOR byte) AND 0xFF]` over exactly the first
350 raw bytes of the header buffer, in order. -/
theorem CalcCRC16_eq_spec_checksum (buf : List Nat) (h : 350 ≤ buf.length) :
    CalcCRC16 buf = checksum buf := by
  unfold CalcCRC16 checksum
  rw [crcLoop_eq_foldl buf 350 0 0xFFFF (by omega) (by norm_num), List.drop_zero]

theorem CalcCRC16_eq_spec_checksum_witness :
    350 ≤ (List.replicate 350 7).length ∧
    CalcCRC16 (List.replicate 350 7) = checksum (List.replicate 350 7) :=
  ⟨by decide, CalcCRC16_eq_spec_checksum _ (by decide)⟩

/-- C3: for inputs at least as long as the fixed header, the file is accepted
at invocation 0 iff the computed CRC-16 equals the stored `headerCRC16`
(little-endian bytes 350/351); nothing else about the contents matters. -/
theorem accept_iff_checksum_matches (li : List Nat) (h : ndsHdrSize ≤ li.length) :
    accept_file li 0 = true ↔ CalcCRC16 li = readLE16 li 0x15E := by
  unfold accept_file decode
  rw [if_neg (by simp), if_neg (Nat.not_lt.mpr h)]
  simp

theorem accept_iff_checksum_matches_witness :
    ndsHdrSize ≤ fileAccepted.length ∧
    (accept_file fileAccepted 0 = true ↔
      CalcCRC16 fileAccepted = readLE16 fileAccepted 0x15E) ∧
    accept_file fileAccepted 0 = true :=
  ⟨by decide, accept_iff_checksum_matches fileAccepted (by decide), by decide⟩

/-- C8: the checksum is deterministic, and flipping any single bit of any
byte among the 350 covered bytes changes the resulting CRC-16. -/
theorem checksum_deterministic_and_bitflip :
    (∀ a b : List Nat, a = b → CalcCRC16 a = CalcCRC16 b) ∧
    (∀ (buf : List Nat) (j k : Nat), j < 350 → j < buf.length → k < 8 →
      CalcCRC16 (buf.set j (buf.getD j 0 ^^^ 2 ^ k)) ≠ CalcCRC16 buf) := by
  refine ⟨fun a b h => by rw [h], ?_⟩
  intro buf j k hj350 hjlen hk
  unfold CalcCRC16
  exact crcLoop_flip buf j k hjlen hk 350 0 0xFFFF (by norm_num) (Nat.zero_le j) (by omega)

theorem checksum_deterministic_and_bitflip_witness :
    (0 : Nat) < 350 ∧ (0 : Nat) < (List.replicate 350 0).length ∧ (0 : Nat) < 8 ∧
    CalcCRC16 ((List.replicate 350 0).set 0 ((List.replicate 350 0).getD 0 0 ^^^ 2 ^ 0)) ≠
      CalcCRC16 (List.replicate 350 0) :=
  ⟨by decide, by decide, by decide,
    checksum_deterministic_and_bitflip.2 (List.replicate 350 0) 0 0
      (by decide) (by decide) (by decide)⟩

theorem filter_addSegm_map (l : List MEMARRAY) :
    (l.map (fun r => LoadEvent.addSegm 1 r.start r.end_ "RAM" "CODE")).filter
      LoadEvent.isAddSegm =
    l.map (fun r => LoadEvent.addSegm 1 r.start r.end_ "RAM" "CODE") := by
  induction l with
  | nil => rfl
  | cons x xs ih => simp [LoadEvent.isAddSegm, ih]

theorem filter_copy_map (l : List MEMARRAY) :
    (l.map (fun r => LoadEvent.addSegm 1 r.start r.end_ "RAM" "CODE")).filter
      LoadEvent.isCopy = [] := by
  induction l with
  | nil => rfl
  | cons x xs ih => simp [LoadEvent.isCopy, ih]

/-- C6: on every successful load the effect sequence creates exactly one
code-class segment per entry of the region table (in table order), contains
exactly one copy action, and the copy of the source range into
`[startAddress, endAddress)` is the last effect, after all segments exist. -/
theorem segments_all_regions_then_copy (memory : List MEMARRAY) (hdr : nds_hdr)
    (v : Variant) (filelen : Nat) (evs : List LoadEvent)
    (h : load_events memory hdr v filelen = .ok evs) :
    evs.filter LoadEvent.isAddSegm =
      memory.map (fun r => LoadEvent.addSegm 1 r.start r.end_ "RAM" "CODE") ∧
    (evs.filter LoadEvent.isCopy).length = 1 ∧
    evs.getLast? = some (.copyToBase (rom_offset hdr v) (ram_address hdr v)
      ((ram_address hdr v + image_size hdr v) % 2 ^ 32)) := by
  unfold load_events at h
  cases hres : resolve memory hdr v filelen with
  | error e => rw [hres] at h; exact absurd h (by simp)
  | ok plan =>
    rw [hres] at h
    obtain ⟨-, -, hp⟩ := (resolve_eq_ok_iff memory hdr v filelen plan).mp hres
    have hevs : evs = (LoadEvent.setSelector 1 0 ::
        memory.map (fun r => LoadEvent.addSegm 1 r.start r.end_ "RAM" "CODE") ++
        [LoadEvent.setAddressing plan.startAddress 1]) ++
        [LoadEvent.copyToBase plan.romOffset plan.startAddress plan.endAddress] :=
      (Except.ok.inj h).symm
    subst hevs
    rw [hp]
    dsimp only
    refine ⟨?_, ?_, ?_⟩
    · simp [List.filter_append, List.filter_cons, filter_addSegm_map,
        LoadEvent.isAddSegm]
    · simp [List.filter_append, List.filter_cons, filter_copy_map, LoadEvent.isCopy]
    · rw [List.getLast?_concat]

theorem segments_all_regions_then_copy_witness :
    load_events [regionMain] hdrScenario .arm9 0x6000 = .ok evsScenario ∧
    evsScenario.filter LoadEvent.isAddSegm =
      [regionMain].map (fun r => LoadEvent.addSegm 1 r.start r.end_ "RAM" "CODE") ∧
    (evsScenario.filter LoadEvent.isCopy).length = 1 ∧
    evsScenario.getLast? = some (.copyToBase (rom_offset hdrScenario .arm9)
      (ram_address hdrScenario .arm9)
      ((ram_address hdrScenario .arm9 + image_size hdrScenario .arm9) % 2 ^ 32)) :=
  ⟨rfl, segments_all_regions_then_copy [regionMain] hdrScenario .arm9 0x6000 evsScenario rfl⟩
